import Mathlib

/-!
Verification of the traffic-counter tracking-and-counting engine.

The definitions below are a shallow embedding of the repository's Python
sources:

* `DirectionCounter` (src/utils.py, class `DirectionCounter`): per-direction
  tallies driven by per-frame track lists.  Python dictionaries keyed by
  integer track ids are embedded as association lists (`List (Nat × _)`)
  with first-match lookup; the `("ignored", (cx, cy))` string-sentinel entry
  of `first_position` is embedded as a `Bool` tag on the stored entry, which
  is faithful because the code distinguishes entries exactly by
  `fp[0] == "ignored"` and an integer coordinate never equals that string.
* The per-frame pipeline of `VideoProcessor.process` (src/processor.py):
  optional pedestrian pre-filtering, tracker update, counter update, and the
  frame-cap loop.
* The output formatting of `NorfairTrackerWrapper.update` (src/tracker.py):
  centroid conversion of detections and the fabricated fallback bounding box.

The association engine itself lives in the external `norfair` dependency and
is not part of the repository's sources; where a claim depends on it, it is
modelled from the specification (§4.1/§4.2), and those definitions carry a
`Modelled from the spec:` doc comment.
-/

namespace TrafficCounter

/-- The four direction labels of the tally (utils.py line 79). -/
inductive Direction
  | North | South | East | West
deriving DecidableEq, Repr

/-- A track record as consumed by `DirectionCounter.update_tracks`
(utils.py lines 86-103): an integer id, an integer centroid, and an
optional class id (the tracker may emit `None`, tracker.py line 55). -/
structure CTrack where
  id : Nat
  centroid : Int × Int
  class_id : Option Nat
deriving DecidableEq, Repr

/-- First-match lookup in an association list, embedding Python
`dict.get` / `in` on integer-keyed dictionaries. -/
def flookup {α : Type} : List (Nat × α) → Nat → Option α
  | [], _ => none
  | (k', v) :: t, k => if k' = k then some v else flookup t k

/-- Removal of a key, embedding Python `del d[k]` on integer-keyed
dictionaries (on states with duplicate-free keys this removes exactly the
entry of `k`). -/
def fremove {α : Type} (l : List (Nat × α)) (k : Nat) : List (Nat × α) :=
  l.filter (fun p => p.1 != k)

/-- The key list of an association list (Python `dict.keys()`). -/
def keysOf {α : Type} (l : List (Nat × α)) : List Nat := l.map Prod.fst

/-- State of a `DirectionCounter` (utils.py lines 76-84).  An entry of
`first_position` is `(ignored?, fx, fy)`: the Boolean embeds the
`("ignored", (cx, cy))` sentinel of the Python code. -/
structure CState where
  first_position : List (Nat × (Bool × Int × Int))
  last_position : List (Nat × (Int × Int))
  counters : Direction → Nat
  w : Nat
  h : Nat
  exclude_pedestrians : Bool

/-- `DirectionCounter.__init__` (utils.py lines 76-84). -/
def mkCounter (w h : Nat) (excl : Bool) : CState :=
  { first_position := [], last_position := [], counters := fun _ => 0,
    w := w, h := h, exclude_pedestrians := excl }

/-- The registration phase of `update_tracks` for one track
(utils.py lines 92-103): record the first centroid on first sight, tagging
the entry as ignored when pedestrian exclusion is on and the track's class
id is 0, and always refresh the last-known position. -/
def registerTrack (s : CState) (t : CTrack) : CState :=
  let s1 :=
    if (flookup s.first_position t.id).isNone then
      if s.exclude_pedestrians && (t.class_id == some 0) then
        { s with first_position :=
            s.first_position ++ [(t.id, (true, t.centroid.1, t.centroid.2))] }
      else
        { s with first_position :=
            s.first_position ++ [(t.id, (false, t.centroid.1, t.centroid.2))] }
    else s
  { s1 with last_position := fremove s1.last_position t.id ++ [(t.id, t.centroid)] }

/-- Registration of a whole frame, in list order (utils.py lines 91-103). -/
def registerAll (s : CState) (ts : List CTrack) : CState :=
  ts.foldl registerTrack s

/-- The direction decision of `update_tracks` (utils.py lines 123-136):
compare the absolute offsets from the frame center and the sign on the
dominant axis. -/
def classify (dx dy : Int) : Direction :=
  if dy.natAbs < dx.natAbs then
    if dx < 0 then .West else .East
  else
    if dy < 0 then .North else .South

/-- Increment one bucket of the counters dictionary
(utils.py lines 129, 131, 134, 136). -/
def bump (c : Direction → Nat) (d0 : Direction) : Direction → Nat :=
  fun d => if d = d0 then c d + 1 else c d

/-- The frame-center x coordinate `w // 2` used to classify retirements
(utils.py line 121). -/
def centerX (s : CState) : Int := ((s.w / 2 : Nat) : Int)

/-- The frame-center y coordinate `h // 2` (utils.py line 121). -/
def centerY (s : CState) : Int := ((s.h / 2 : Nat) : Int)

/-- Processing of one disappeared id (utils.py lines 107-141): an ignored
entry is dropped with no tally change; a normal entry increments the bucket
chosen from its first centroid and the frame center `(w // 2, h // 2)`;
in both cases the bookkeeping entries are deleted. -/
def retireOne (s : CState) (tid : Nat) : CState :=
  let s1 :=
    match flookup s.first_position tid with
    | some (false, fx, fy) =>
        { s with counters := bump s.counters (classify (fx - centerX s) (fy - centerY s)) }
    | _ => s
  { s1 with first_position := fremove s1.first_position tid,
            last_position := fremove s1.last_position tid }

/-- The id list of one frame of tracks. -/
def frameIds (ts : List CTrack) : List Nat := ts.map (·.id)

/-- The ids registered in the state but absent from the current frame
(utils.py line 105). -/
def disappearedIds (s : CState) (cur : List Nat) : List Nat :=
  (keysOf s.first_position).filter (fun tid => !(cur.contains tid))

/-- `DirectionCounter.update_tracks` (utils.py lines 86-141): register
every track of the frame, then retire every registered id that the frame
no longer contains. -/
def update_tracks (s : CState) (ts : List CTrack) : CState :=
  let s1 := registerAll s ts
  (disappearedIds s1 (frameIds ts)).foldl retireOne s1

/-- `DirectionCounter.get_counts` (utils.py lines 143-144): a snapshot of
the counters dictionary, in its fixed insertion order. -/
def get_counts (s : CState) : List (String × Nat) :=
  [("North", s.counters .North), ("South", s.counters .South),
   ("East", s.counters .East), ("West", s.counters .West)]

/-- `DirectionCounter.reset` (utils.py lines 146-149). -/
def resetCounter (s : CState) : CState :=
  { s with first_position := [], last_position := [],
           counters := fun _ => 0 }

/-- A whole session of `update_tracks` calls, one per frame
(processor.py line 57). -/
def runUpd (s : CState) (fss : List (List CTrack)) : CState :=
  fss.foldl update_tracks s

/-- The retirement events of one `update_tracks` call: the ids handed to
the retirement loop of utils.py lines 107-141. -/
def eventsOf (s : CState) (ts : List CTrack) : List Nat :=
  disappearedIds (registerAll s ts) (frameIds ts)

/-- The per-frame retirement events of a whole session. -/
def runEvents (s : CState) : List (List CTrack) → List (List Nat)
  | [] => []
  | ts :: rest => eventsOf s ts :: runEvents (update_tracks s ts) rest

/-- The sum of the four tally buckets. -/
def total (s : CState) : Nat :=
  s.counters .North + s.counters .South + s.counters .East + s.counters .West

/-- The first track record carrying a given id in a frame sequence
(scanning frames in order and each frame in list order), i.e. the record
whose class decides the ignored flag in utils.py lines 96-102. -/
def firstObs (tid : Nat) : List (List CTrack) → Option CTrack
  | [] => none
  | ts :: rest =>
      match ts.find? (fun t => t.id == tid) with
      | some t => some t
      | none => firstObs tid rest

/-- The set of distinct ids appearing anywhere in a frame sequence. -/
def seenIds (fss : List (List CTrack)) : Finset Nat :=
  (fss.flatMap frameIds).toFinset

/-- Whether an id is ignored by the counter: its first-observed record has
class id 0 while exclusion is enabled (utils.py line 98). -/
def ignFlag (excl : Bool) (fss : List (List CTrack)) (tid : Nat) : Bool :=
  match firstObs tid fss with
  | some t => excl && (t.class_id == some 0)
  | none => false

/-- The tracker contract assumed by the counter (spec §3: identities are
never reused; §4.2: no track is revived after retirement): scanning the
frames in order with `live` the previous frame's ids and `dead` the ids
that have already disappeared, no current id may be a dead one. -/
def chainB (live dead : Finset Nat) : List (List CTrack) → Bool
  | [] => true
  | ts :: rest =>
      let F := (frameIds ts).toFinset
      decide (Disjoint F dead) && chainB F (dead ∪ (live \ F)) rest

/-- The `first_position` entry created for a newly seen track
(utils.py lines 96-102). -/
def entryFor (excl : Bool) (t : CTrack) : Bool × Int × Int :=
  (excl && (t.class_id == some 0), t.centroid.1, t.centroid.2)

/-- Whether an id currently holds a non-ignored `first_position` entry,
i.e. retiring it would increment a bucket. -/
def liveNonIgn (s : CState) (tid : Nat) : Bool :=
  match flookup s.first_position tid with
  | some (false, _, _) => true
  | _ => false

/-- Sum of a counters function over the four directions. -/
def totalC (c : Direction → Nat) : Nat :=
  c .North + c .South + c .East + c .West

/-- Whether retiring `tid` in state `s` increments bucket `d`. -/
def countsD (s : CState) (tid : Nat) (d : Direction) : Bool :=
  match flookup s.first_position tid with
  | some (false, fx, fy) => classify (fx - centerX s) (fy - centerY s) == d
  | _ => false

/-- State used to witness the classification theorem: a 640x480 counter
holding one live non-ignored track with id 5 first seen at (50, 200). -/
def C2ws : CState :=
  { first_position := [(5, (false, 50, 200))], last_position := [],
    counters := fun _ => 0, w := 640, h := 480, exclude_pedestrians := true }

/-- The finite set of ids currently registered in `first_position`. -/
def keysFin (s : CState) : Finset Nat := (keysOf s.first_position).toFinset

/-- Session invariant for the conservation argument: the exclusion flag is
fixed, registered keys are duplicate-free and among the ids seen so far,
every stored ignored tag agrees with the session-level ignored flag, and
the tally total counts exactly the seen, no-longer-live, non-ignored ids. -/
def InvC1 (excl : Bool) (flag : Nat → Bool) (seen : Finset Nat) (s : CState) : Prop :=
  s.exclude_pedestrians = excl ∧
  (keysOf s.first_position).Nodup ∧
  keysFin s ⊆ seen ∧
  (∀ tid b fx fy, flookup s.first_position tid = some (b, fx, fy) → b = flag tid) ∧
  total s = ((seen \ keysFin s).filter (fun tid => flag tid = false)).card

/-- A detection dictionary as produced by `YOLODetector.detect`
(detector.py lines 56-63): integer bounding-box corners, a confidence
payload (only ever passed through, embedded as a `Nat`), a class id and a
class name. -/
structure Det where
  x1 : Int
  y1 : Int
  x2 : Int
  y2 : Int
  conf : Nat
  class_id : Nat
  class_name : String
deriving DecidableEq, Repr

/-- An output record of `NorfairTrackerWrapper.update`
(tracker.py lines 58-65). -/
structure OutTrack where
  id : Nat
  bbox : Int × Int × Int × Int
  centroid : Int × Int
  class_id : Option Nat
  class_name : Option String
  conf : Option Nat
deriving DecidableEq, Repr

/-- The detection-centroid conversion of tracker.py lines 32-34:
`int((x1 + x2) / 2)` is Python float division truncated toward zero,
i.e. `Int.tdiv`.  No validity check is performed on the box. -/
def detCentroid (d : Det) : Int × Int :=
  ((d.x1 + d.x2).tdiv 2, (d.y1 + d.y2).tdiv 2)

/-- Output formatting of one tracked object (tracker.py lines 41-65): with
an associated last detection its data is reported; otherwise a fabricated
20x20 box around the integer estimate is reported and the class fields are
`None`. -/
def formatTracked (tid : Nat) (est : Int × Int) (lastDet : Option Det) : OutTrack :=
  match lastDet with
  | some d =>
      { id := tid, bbox := (d.x1, d.y1, d.x2, d.y2), centroid := est,
        class_id := some d.class_id, class_name := some d.class_name,
        conf := some d.conf }
  | none =>
      { id := tid, bbox := (est.1 - 10, est.2 - 10, est.1 + 10, est.2 + 10),
        centroid := est, class_id := none, class_name := none, conf := none }

/-- Modelled from the spec: the Track Registry state of the Association
Engine (spec §2, §3), implemented by the external `norfair` dependency and
absent from src/ — the next fresh identity (monotonically increasing,
never reused, spec §3) and the live tracks, each carrying its identity,
last-known centroid (the estimate) and last matched class. -/
structure TState where
  nextId : Nat
  live : List CTrack
deriving DecidableEq, Repr

/-- Modelled from the spec: squared Euclidean centroid distance; comparing
it with the squared threshold embeds the `distance ≤ threshold`
eligibility rule of spec §4.1. -/
def dist2 (a b : Int × Int) : Nat :=
  ((a.1 - b.1) ^ 2 + (a.2 - b.2) ^ 2).toNat

/-- Modelled from the spec: the eligible track/detection pairs of one
frame, as (squared distance, track index, detection index) (spec §4.1). -/
def elig (thr2 : Nat) (live : List CTrack) (dets : List Det) :
    List (Nat × Nat × Nat) :=
  live.enum.flatMap (fun ti =>
    dets.enum.filterMap (fun dj =>
      let dd := dist2 ti.2.centroid (detCentroid dj.2)
      if dd ≤ thr2 then some (dd, ti.1, dj.1) else none))

/-- Strict lexicographic order on (distance, track index, detection index)
giving the deterministic greedy order of spec §4.1 (closest pairs first,
ties broken by track then detection position). -/
def pairLt (p q : Nat × Nat × Nat) : Bool :=
  p.1 < q.1 || (p.1 == q.1 && (p.2.1 < q.2.1 || (p.2.1 == q.2.1 && p.2.2 < q.2.2)))

/-- Modelled from the spec: the next pair the greedy matcher consumes. -/
def minPair (l : List (Nat × Nat × Nat)) : Option (Nat × Nat × Nat) :=
  l.foldl (fun acc p =>
    match acc with
    | none => some p
    | some q => if pairLt p q then some p else some q) none

/-- Modelled from the spec: greedy resolution of the eligible pairs in
increasing distance order; a consumed track or detection is removed from
further consideration (spec §4.1). -/
def greedyLoop : Nat → List (Nat × Nat × Nat) → List (Nat × Nat)
  | 0, _ => []
  | fuel + 1, pairs =>
      match minPair pairs with
      | none => []
      | some (_, i, j) =>
          (i, j) :: greedyLoop fuel
            (pairs.filter (fun p => p.2.1 != i && p.2.2 != j))

/-- Modelled from the spec: the one-to-one greedy assignment of spec §4.1. -/
def greedyMatch (pairs : List (Nat × Nat × Nat)) : List (Nat × Nat) :=
  greedyLoop pairs.length pairs

/-- Modelled from the spec: one frame of the Association Engine and Track
Lifecycle Manager (spec §4.1, §4.2) under the code's configuration
(tracker.py line 15 passes `initialization_delay=0`, so tracks are emitted
from their first frame; spec §4.2, simplest retirement policy: a live
track unmatched in the current frame is dropped from the registry and no
longer emitted).  A matched track takes the matched detection's centroid
and class; each unmatched detection spawns a fresh id; the emitted track
list is the new live set. -/
def stepFrame (thr2 : Nat) (st : TState) (dets : List Det) :
    TState × List CTrack :=
  let m := greedyMatch (elig thr2 st.live dets)
  let kept := st.live.enum.filterMap (fun ti =>
    match m.find? (fun p => p.1 == ti.1) with
    | some p =>
        match dets[p.2]? with
        | some d => some (CTrack.mk ti.2.id (detCentroid d) (some d.class_id))
        | none => none
    | none => none)
  let spawned := (dets.enum.filter (fun dj => !(m.any (fun p => p.2 == dj.1)))).foldl
    (fun acc dj =>
      (acc.1 + 1, acc.2 ++ [CTrack.mk acc.1 (detCentroid dj.2) (some dj.2.class_id)]))
    (st.nextId, ([] : List CTrack))
  let live2 := kept ++ spawned.2
  ({ nextId := spawned.1, live := live2 }, live2)

/-- State of one `VideoProcessor.process` run: the (spec-modelled) tracker
registry plus the `DirectionCounter` (processor.py lines 17, 33). -/
structure PState where
  tracker : TState
  counter : CState

/-- The pipeline's initial state: norfair identities start at 1; the
counter is created with the frame size and the exclusion flag
(processor.py line 33). -/
def mkPipe (w h : Nat) (exclCounter : Bool) : PState :=
  { tracker := { nextId := 1, live := [] }, counter := mkCounter w h exclCounter }

/-- One iteration of the frame loop of `VideoProcessor.process`
(processor.py lines 48-57): the frame's external detections are optionally
pre-filtered to drop class id 0, fed to the tracker, and the emitted
tracks drive the counter.  In the code both the pre-filter and the
counter's own exclusion flag are the same `exclude_pedestrians` option;
they are separate parameters here so that the two policies can be
compared. -/
def procFrame (preFilterPeds : Bool) (thr2 : Nat) (st : PState)
    (dets : List Det) : PState :=
  let dets2 := if preFilterPeds then dets.filter (fun d => d.class_id != 0) else dets
  let r := stepFrame thr2 st.tracker dets2
  { tracker := r.1, counter := update_tracks st.counter r.2 }

/-- The frame-cap test of processor.py line 44: Python's
`if max_frames and frame_idx > max_frames` — a `None` or `0` cap is falsy
and never stops the loop. -/
def capHit : Option Nat → Nat → Bool
  | none, _ => false
  | some n, idx => n != 0 && decide (idx > n)

/-- The frame loop of `VideoProcessor.process` (processor.py lines 38-45):
each read frame increments `frame_idx`; the loop breaks before processing
the frame once the cap is exceeded, and no flushing of in-flight tracks
happens after the loop (lines 70-74). -/
def processLoop (preFilterPeds : Bool) (thr2 : Nat) (cap : Option Nat) :
    PState → Nat → List (List Det) → PState
  | st, _, [] => st
  | st, idx, f :: rest =>
      if capHit cap (idx + 1) then st
      else processLoop preFilterPeds thr2 cap
        (procFrame preFilterPeds thr2 st f) (idx + 1) rest

/-- A full `VideoProcessor.process` run over a finite stream of per-frame
detections (the video and detector are external collaborators; the stream
stands for the detections they produce). -/
def processVideo (preFilterPeds : Bool) (thr2 : Nat) (cap : Option Nat)
    (w h : Nat) (exclCounter : Bool) (frames : List (List Det)) : PState :=
  processLoop preFilterPeds thr2 cap (mkPipe w h exclCounter) 0 frames

/-- The three detections of the pre-filter counterexample: a vehicle at
centroid (100, 100), a pedestrian at the same spot, and a second vehicle
at centroid (110, 100). -/
def vehA : Det := ⟨95, 95, 105, 105, 90, 2, "car"⟩

def pedB : Det := ⟨95, 95, 105, 105, 80, 0, "person"⟩

def vehC : Det := ⟨105, 95, 115, 105, 85, 2, "car"⟩

/-- Three frames on which pre-filtering and counter-stage ignoring
disagree: the pedestrian steals the association with the live vehicle
track, so the unfiltered run spawns a second vehicle track. -/
def c5frames : List (List Det) := [[vehA], [pedB, vehC], []]

/-- A degenerate (inverted-box) detection: x1 > x2 and y1 > y2. -/
def degDet : Det := ⟨10, 10, 5, 5, 90, 2, "car"⟩

/-- Removal of excluded-class track records from the counter's input
stream (the comparison point for the amended pre-filter claim). -/
def filterPedTracks (fss : List (List CTrack)) : List (List CTrack) :=
  fss.map (fun ts => ts.filter (fun t => !(t.class_id == some 0)))

/-- Bisimulation invariant between a counter fed the whole track stream
(exclusion on) and a counter fed the stream with class-0 tracks removed:
same geometry and flag, identical counters, identical entries for ids of
non-excluded class, and for excluded-class ids at most an ignored-tagged
entry on the left and none on the right. -/
def InvC5 (clsOf : Nat → Option Nat) (sl sr : CState) : Prop :=
  sl.exclude_pedestrians = true ∧ sr.exclude_pedestrians = true ∧
  sl.w = sr.w ∧ sl.h = sr.h ∧
  (keysOf sl.first_position).Nodup ∧ (keysOf sr.first_position).Nodup ∧
  (∀ d, sl.counters d = sr.counters d) ∧
  (∀ tid, clsOf tid ≠ some 0 →
      flookup sl.first_position tid = flookup sr.first_position tid) ∧
  (∀ tid, clsOf tid = some 0 →
      (∀ b fx fy, flookup sl.first_position tid = some (b, fx, fy) → b = true) ∧
        flookup sr.first_position tid = none)

/-- Frames used to witness the counter-stage equivalence: a vehicle track
and a pedestrian track that both disappear at the second frame. -/
def c5wFrames : List (List CTrack) :=
  [[CTrack.mk 1 (50, 200) (some 2), CTrack.mk 2 (100, 100) (some 0)], []]

/-- The class assignment of `c5wFrames`. -/
def c5wCls : Nat → Option Nat :=
  fun tid => if tid = 1 then some 2 else if tid = 2 then some 0 else none

/-- State used to witness the exclusion theorem: a 640x480 counter holding
one ignored (pedestrian-first) track with id 7. -/
def C3ws : CState :=
  { first_position := [(7, (true, 100, 100))], last_position := [],
    counters := fun _ => 0, w := 640, h := 480, exclude_pedestrians := true }

theorem total_eq_totalC (s : CState) : total s = totalC s.counters := rfl

theorem totalC_bump (c : Direction → Nat) (d0 : Direction) :
    totalC (bump c d0) = totalC c + 1 := by
  cases d0 <;> simp [totalC, bump] <;> omega

theorem flookup_isSome_iff {α : Type} (l : List (Nat × α)) (k : Nat) :
    (flookup l k).isSome ↔ k ∈ keysOf l := by
  induction l with
  | nil => simp [flookup, keysOf]
  | cons p t ih =>
      obtain ⟨k', v⟩ := p
      by_cases h : k' = k
      · subst h
        simp [flookup, keysOf]
      · have hne : ¬ k = k' := fun hh => h hh.symm
        simp [flookup, keysOf, h, hne, ih]

theorem flookup_eq_none_iff {α : Type} (l : List (Nat × α)) (k : Nat) :
    flookup l k = none ↔ k ∉ keysOf l := by
  rw [← flookup_isSome_iff, Option.isSome_iff_exists]
  cases flookup l k <;> simp

theorem flookup_append_single {α : Type} (l : List (Nat × α)) (j k : Nat) (e : α) :
    flookup (l ++ [(j, e)]) k =
      match flookup l k with
      | some v => some v
      | none => if j = k then some e else none := by
  induction l with
  | nil => simp [flookup]
  | cons p t ih =>
      obtain ⟨k', v⟩ := p
      by_cases h : k' = k <;> simp [flookup, h, ih]

theorem flookup_fremove {α : Type} (l : List (Nat × α)) (k k' : Nat) :
    flookup (fremove l k) k' = if k' = k then none else flookup l k' := by
  induction l with
  | nil => simp [flookup, fremove]
  | cons p t ih =>
      obtain ⟨k0, v⟩ := p
      by_cases h0 : k0 = k
      · have hdrop : fremove ((k0, v) :: t) k = fremove t k := by
          simp [fremove, List.filter_cons, h0]
        rw [hdrop, ih]
        by_cases h1 : k' = k
        · simp [h1]
        · have hne : ¬ k0 = k' := by
            intro hh
            exact h1 (hh ▸ h0 ▸ rfl)
          simp [flookup, h1, hne]
      · have hkeep : fremove ((k0, v) :: t) k = (k0, v) :: fremove t k := by
          simp [fremove, List.filter_cons, h0]
        rw [hkeep]
        by_cases h1 : k0 = k'
        · subst h1
          simp [flookup, h0]
        · simp [flookup, h1, ih]

theorem keysOf_fremove {α : Type} (l : List (Nat × α)) (k : Nat) :
    keysOf (fremove l k) = (keysOf l).filter (fun x => x != k) := by
  induction l with
  | nil => rfl
  | cons p t ih =>
      obtain ⟨k0, v⟩ := p
      by_cases h : k0 = k
      · simp [fremove, keysOf, List.filter_cons, h] at *
        simpa [fremove, keysOf] using ih
      · simp [fremove, keysOf, List.filter_cons, h] at *
        simpa [fremove, keysOf] using ih

theorem nodup_keys_fremove {α : Type} (l : List (Nat × α)) (k : Nat)
    (h : (keysOf l).Nodup) : (keysOf (fremove l k)).Nodup := by
  rw [keysOf_fremove]
  exact h.filter _

theorem registerTrack_counters (s : CState) (t : CTrack) :
    (registerTrack s t).counters = s.counters := by
  simp only [registerTrack]
  split
  · split <;> rfl
  · rfl

theorem registerTrack_excl (s : CState) (t : CTrack) :
    (registerTrack s t).exclude_pedestrians = s.exclude_pedestrians := by
  simp only [registerTrack]
  split
  · split <;> rfl
  · rfl

theorem registerTrack_w (s : CState) (t : CTrack) :
    (registerTrack s t).w = s.w := by
  simp only [registerTrack]
  split
  · split <;> rfl
  · rfl

theorem registerTrack_h (s : CState) (t : CTrack) :
    (registerTrack s t).h = s.h := by
  simp only [registerTrack]
  split
  · split <;> rfl
  · rfl

theorem registerTrack_lookup (s : CState) (t : CTrack) (tid : Nat) :
    flookup (registerTrack s t).first_position tid =
      match flookup s.first_position tid with
      | some e => some e
      | none =>
          if t.id = tid then some (entryFor s.exclude_pedestrians t) else none := by
  cases hx : flookup s.first_position t.id with
  | some e =>
      have hfp : (registerTrack s t).first_position = s.first_position := by
        simp [registerTrack, hx]
      rw [hfp]
      cases hy : flookup s.first_position tid with
      | some v => rfl
      | none =>
          have hne : ¬ t.id = tid := by
            intro hh
            rw [hh, hy] at hx
            exact Option.noConfusion hx
          simp [hne]
  | none =>
      have hfp : (registerTrack s t).first_position =
          s.first_position ++ [(t.id, entryFor s.exclude_pedestrians t)] := by
        by_cases hex : s.exclude_pedestrians && (t.class_id == some 0) <;>
          simp [registerTrack, hx, hex, entryFor]
      rw [hfp, flookup_append_single]
      cases flookup s.first_position tid <;> rfl

theorem registerAll_counters (ts : List CTrack) : ∀ s : CState,
    (registerAll s ts).counters = s.counters := by
  induction ts with
  | nil => intro s; rfl
  | cons t ts ih =>
      intro s
      show (registerAll (registerTrack s t) ts).counters = s.counters
      rw [ih, registerTrack_counters]

theorem registerAll_excl (ts : List CTrack) : ∀ s : CState,
    (registerAll s ts).exclude_pedestrians = s.exclude_pedestrians := by
  induction ts with
  | nil => intro s; rfl
  | cons t ts ih =>
      intro s
      show (registerAll (registerTrack s t) ts).exclude_pedestrians = _
      rw [ih, registerTrack_excl]

theorem registerAll_w (ts : List CTrack) : ∀ s : CState,
    (registerAll s ts).w = s.w := by
  induction ts with
  | nil => intro s; rfl
  | cons t ts ih =>
      intro s
      show (registerAll (registerTrack s t) ts).w = s.w
      rw [ih, registerTrack_w]

theorem registerAll_h (ts : List CTrack) : ∀ s : CState,
    (registerAll s ts).h = s.h := by
  induction ts with
  | nil => intro s; rfl
  | cons t ts ih =>
      intro s
      show (registerAll (registerTrack s t) ts).h = s.h
      rw [ih, registerTrack_h]

theorem registerAll_lookup (ts : List CTrack) : ∀ (s : CState) (tid : Nat),
    flookup (registerAll s ts).first_position tid =
      match flookup s.first_position tid with
      | some e => some e
      | none =>
          (ts.find? (fun t => t.id == tid)).map (entryFor s.exclude_pedestrians) := by
  induction ts with
  | nil =>
      intro s tid
      cases hx : flookup s.first_position tid <;> simp [registerAll, hx]
  | cons t ts ih =>
      intro s tid
      show flookup (registerAll (registerTrack s t) ts).first_position tid = _
      rw [ih, registerTrack_lookup, registerTrack_excl]
      cases hx : flookup s.first_position tid with
      | some e => rfl
      | none =>
          by_cases hid : t.id = tid
          · simp [List.find?_cons, hid]
          · have hbeq : (t.id == tid) = false := by
              simp [hid]
            simp [List.find?_cons, hbeq, hid]

theorem registerAll_mem_keys (ts : List CTrack) (s : CState) (tid : Nat) :
    tid ∈ keysOf (registerAll s ts).first_position ↔
      tid ∈ keysOf s.first_position ∨ tid ∈ frameIds ts := by
  rw [← flookup_isSome_iff, registerAll_lookup]
  cases hx : flookup s.first_position tid with
  | some e =>
      have h1 : tid ∈ keysOf s.first_position := by
        rw [← flookup_isSome_iff, hx]; rfl
      simp [h1]
  | none =>
      have hmem : tid ∉ keysOf s.first_position := by
        rw [← flookup_isSome_iff, hx]; simp
      cases hf : List.find? (fun t => t.id == tid) ts with
      | some t =>
          have hp : t.id = tid := by simpa using List.find?_some hf
          have htm : t ∈ ts := List.mem_of_find?_eq_some hf
          have hin : tid ∈ frameIds ts := hp ▸ List.mem_map.mpr ⟨t, htm, rfl⟩
          simp [hin]
      | none =>
          have hnotf : ∀ t ∈ ts, ¬ t.id = tid := by
            intro t ht
            have := List.find?_eq_none.mp hf t ht
            simpa using this
          have hout : tid ∉ frameIds ts := by
            intro hmm
            obtain ⟨t, ht, hid⟩ := List.mem_map.mp hmm
            exact hnotf t ht hid
          simp [hmem, hout]

theorem registerAll_nodup (ts : List CTrack) : ∀ s : CState,
    (keysOf s.first_position).Nodup → (keysOf (registerAll s ts).first_position).Nodup := by
  induction ts with
  | nil => intro s h; exact h
  | cons t ts ih =>
      intro s h
      show (keysOf (registerAll (registerTrack s t) ts).first_position).Nodup
      apply ih
      cases hx : flookup s.first_position t.id with
      | some e =>
          have hfp : (registerTrack s t).first_position = s.first_position := by
            simp [registerTrack, hx]
          rw [hfp]; exact h
      | none =>
          have hfp : (registerTrack s t).first_position =
              s.first_position ++ [(t.id, entryFor s.exclude_pedestrians t)] := by
            by_cases hex : s.exclude_pedestrians && (t.class_id == some 0) <;>
              simp [registerTrack, hx, hex, entryFor]
          have hmem : t.id ∉ keysOf s.first_position := by
            rw [← flookup_isSome_iff, hx]
            simp
          rw [hfp]
          have : keysOf (s.first_position ++ [(t.id, entryFor s.exclude_pedestrians t)]) =
              keysOf s.first_position ++ [t.id] := by
            simp [keysOf]
          rw [this]
          simpa [List.nodup_append] using ⟨h, hmem⟩

theorem bump_le (c : Direction → Nat) (d0 d : Direction) : c d ≤ bump c d0 d := by
  simp only [bump]
  split <;> omega

theorem bump_apply (c : Direction → Nat) (d0 d : Direction) :
    bump c d0 d = c d + (if d = d0 then 1 else 0) := by
  simp only [bump]
  split <;> omega

theorem retireOne_first (s : CState) (tid : Nat) :
    (retireOne s tid).first_position = fremove s.first_position tid := by
  simp only [retireOne]
  cases hx : flookup s.first_position tid with
  | none => rfl
  | some e =>
      obtain ⟨b, fx, fy⟩ := e
      cases b <;> rfl

theorem retireOne_excl (s : CState) (tid : Nat) :
    (retireOne s tid).exclude_pedestrians = s.exclude_pedestrians := by
  simp only [retireOne]
  cases hx : flookup s.first_position tid with
  | none => rfl
  | some e =>
      obtain ⟨b, fx, fy⟩ := e
      cases b <;> rfl

theorem retireOne_w (s : CState) (tid : Nat) : (retireOne s tid).w = s.w := by
  simp only [retireOne]
  cases hx : flookup s.first_position tid with
  | none => rfl
  | some e =>
      obtain ⟨b, fx, fy⟩ := e
      cases b <;> rfl

theorem retireOne_h (s : CState) (tid : Nat) : (retireOne s tid).h = s.h := by
  simp only [retireOne]
  cases hx : flookup s.first_position tid with
  | none => rfl
  | some e =>
      obtain ⟨b, fx, fy⟩ := e
      cases b <;> rfl

theorem centerX_retireOne (s : CState) (tid : Nat) :
    centerX (retireOne s tid) = centerX s := by
  simp [centerX, retireOne_w]

theorem centerY_retireOne (s : CState) (tid : Nat) :
    centerY (retireOne s tid) = centerY s := by
  simp [centerY, retireOne_h]

theorem retireOne_lookup (s : CState) (tid tid' : Nat) :
    flookup (retireOne s tid).first_position tid' =
      if tid' = tid then none else flookup s.first_position tid' := by
  rw [retireOne_first, flookup_fremove]

theorem retireOne_counters_apply (s : CState) (tid : Nat) (d : Direction) :
    (retireOne s tid).counters d =
      s.counters d + (if countsD s tid d then 1 else 0) := by
  cases hx : flookup s.first_position tid with
  | none => simp [retireOne, countsD, hx]
  | some e =>
      obtain ⟨b, fx, fy⟩ := e
      cases b with
      | true => simp [retireOne, countsD, hx]
      | false =>
          simp only [retireOne, countsD, hx, bump_apply]
          by_cases hd : classify (fx - centerX s) (fy - centerY s) = d
          · simp [hd]
          · have hb : ¬ d = classify (fx - centerX s) (fy - centerY s) :=
              fun hh => hd hh.symm
            simp [hd, hb]

theorem retireOne_total (s : CState) (tid : Nat) :
    total (retireOne s tid) = total s + (if liveNonIgn s tid then 1 else 0) := by
  cases hx : flookup s.first_position tid with
  | none => simp [retireOne, liveNonIgn, total, hx]
  | some e =>
      obtain ⟨b, fx, fy⟩ := e
      cases b with
      | true => simp [retireOne, liveNonIgn, total, hx]
      | false =>
          simp only [retireOne, liveNonIgn, hx, if_true]
          show totalC (bump s.counters (classify (fx - centerX s) (fy - centerY s))) =
            totalC s.counters + 1
          exact totalC_bump _ _

theorem retireOne_mono (s : CState) (tid : Nat) (d : Direction) :
    s.counters d ≤ (retireOne s tid).counters d := by
  rw [retireOne_counters_apply]
  omega

theorem retireFold_excl (L : List Nat) : ∀ s : CState,
    (L.foldl retireOne s).exclude_pedestrians = s.exclude_pedestrians := by
  induction L with
  | nil => intro s; rfl
  | cons t L ih =>
      intro s
      show (L.foldl retireOne (retireOne s t)).exclude_pedestrians = _
      rw [ih, retireOne_excl]

theorem retireFold_w (L : List Nat) : ∀ s : CState, (L.foldl retireOne s).w = s.w := by
  induction L with
  | nil => intro s; rfl
  | cons t L ih =>
      intro s
      show (L.foldl retireOne (retireOne s t)).w = _
      rw [ih, retireOne_w]

theorem retireFold_h (L : List Nat) : ∀ s : CState, (L.foldl retireOne s).h = s.h := by
  induction L with
  | nil => intro s; rfl
  | cons t L ih =>
      intro s
      show (L.foldl retireOne (retireOne s t)).h = _
      rw [ih, retireOne_h]

theorem retireFold_lookup (L : List Nat) : ∀ (s : CState) (tid : Nat),
    flookup (L.foldl retireOne s).first_position tid =
      if tid ∈ L then none else flookup s.first_position tid := by
  induction L with
  | nil =>
      intro s tid
      simp
  | cons t L ih =>
      intro s tid
      show flookup (L.foldl retireOne (retireOne s t)).first_position tid = _
      rw [ih, retireOne_lookup]
      by_cases h1 : tid ∈ L
      · simp [h1]
      · by_cases h2 : tid = t
        · simp [h1, h2]
        · simp [h1, h2]

theorem retireFold_mono (L : List Nat) : ∀ (s : CState) (d : Direction),
    s.counters d ≤ (L.foldl retireOne s).counters d := by
  induction L with
  | nil => intro s d; exact Nat.le_refl _
  | cons t L ih =>
      intro s d
      calc s.counters d ≤ (retireOne s t).counters d := retireOne_mono s t d
        _ ≤ (L.foldl retireOne (retireOne s t)).counters d := ih _ d

theorem retireFold_nodup (L : List Nat) : ∀ s : CState,
    (keysOf s.first_position).Nodup → (keysOf (L.foldl retireOne s).first_position).Nodup := by
  induction L with
  | nil => intro s h; exact h
  | cons t L ih =>
      intro s h
      apply ih
      rw [retireOne_first]
      exact nodup_keys_fremove _ _ h

theorem retireFold_counters (L : List Nat) : ∀ (s : CState) (d : Direction), L.Nodup →
    (L.foldl retireOne s).counters d =
      s.counters d + (L.filter (fun tid => countsD s tid d)).length := by
  induction L with
  | nil =>
      intro s d _
      simp
  | cons t L ih =>
      intro s d hnd
      have hnd' : L.Nodup := (List.nodup_cons.mp hnd).2
      have htL : t ∉ L := (List.nodup_cons.mp hnd).1
      show (L.foldl retireOne (retireOne s t)).counters d = _
      rw [ih _ d hnd']
      have hcongr : L.filter (fun tid => countsD (retireOne s t) tid d) =
          L.filter (fun tid => countsD s tid d) := by
        apply List.filter_congr
        intro tid htid
        have hne : ¬ tid = t := fun hh => htL (hh ▸ htid)
        simp only [countsD, retireOne_lookup, centerX_retireOne, centerY_retireOne,
          if_neg hne]
      rw [hcongr, retireOne_counters_apply]
      simp only [List.filter_cons]
      by_cases hc : countsD s t d
      · simp [hc]
        omega
      · simp [hc]

theorem retireFold_total (L : List Nat) : ∀ s : CState, L.Nodup →
    total (L.foldl retireOne s) =
      total s + (L.filter (fun tid => liveNonIgn s tid)).length := by
  induction L with
  | nil =>
      intro s _
      simp
  | cons t L ih =>
      intro s hnd
      have hnd' : L.Nodup := (List.nodup_cons.mp hnd).2
      have htL : t ∉ L := (List.nodup_cons.mp hnd).1
      show total (L.foldl retireOne (retireOne s t)) = _
      rw [ih _ hnd']
      have hcongr : L.filter (fun tid => liveNonIgn (retireOne s t) tid) =
          L.filter (fun tid => liveNonIgn s tid) := by
        apply List.filter_congr
        intro tid htid
        have hne : ¬ tid = t := fun hh => htL (hh ▸ htid)
        simp only [liveNonIgn, retireOne_lookup, if_neg hne]
      rw [hcongr, retireOne_total]
      simp only [List.filter_cons]
      by_cases hc : liveNonIgn s t
      · simp [hc]
        omega
      · simp [hc]

theorem mem_disappearedIds (s : CState) (cur : List Nat) (tid : Nat) :
    tid ∈ disappearedIds s cur ↔ tid ∈ keysOf s.first_position ∧ tid ∉ cur := by
  simp [disappearedIds, List.mem_filter]

theorem disappearedIds_nodup (s : CState) (cur : List Nat)
    (h : (keysOf s.first_position).Nodup) : (disappearedIds s cur).Nodup :=
  h.filter _

theorem update_tracks_excl (s : CState) (ts : List CTrack) :
    (update_tracks s ts).exclude_pedestrians = s.exclude_pedestrians := by
  show ((disappearedIds (registerAll s ts) (frameIds ts)).foldl retireOne
      (registerAll s ts)).exclude_pedestrians = _
  rw [retireFold_excl, registerAll_excl]

theorem update_tracks_w (s : CState) (ts : List CTrack) :
    (update_tracks s ts).w = s.w := by
  show ((disappearedIds (registerAll s ts) (frameIds ts)).foldl retireOne
      (registerAll s ts)).w = _
  rw [retireFold_w, registerAll_w]

theorem update_tracks_h (s : CState) (ts : List CTrack) :
    (update_tracks s ts).h = s.h := by
  show ((disappearedIds (registerAll s ts) (frameIds ts)).foldl retireOne
      (registerAll s ts)).h = _
  rw [retireFold_h, registerAll_h]

theorem update_tracks_counters_mono (s : CState) (ts : List CTrack) (d : Direction) :
    s.counters d ≤ (update_tracks s ts).counters d := by
  show s.counters d ≤ ((disappearedIds (registerAll s ts) (frameIds ts)).foldl retireOne
      (registerAll s ts)).counters d
  have h1 := retireFold_mono (disappearedIds (registerAll s ts) (frameIds ts))
    (registerAll s ts) d
  rw [registerAll_counters] at h1
  exact h1

theorem update_tracks_nodup (s : CState) (ts : List CTrack)
    (h : (keysOf s.first_position).Nodup) :
    (keysOf (update_tracks s ts).first_position).Nodup := by
  show (keysOf ((disappearedIds (registerAll s ts) (frameIds ts)).foldl retireOne
      (registerAll s ts)).first_position).Nodup
  exact retireFold_nodup _ _ (registerAll_nodup ts s h)

theorem update_tracks_lookup (s : CState) (ts : List CTrack) (tid : Nat) :
    flookup (update_tracks s ts).first_position tid =
      if tid ∈ frameIds ts then flookup (registerAll s ts).first_position tid
      else none := by
  show flookup ((disappearedIds (registerAll s ts) (frameIds ts)).foldl retireOne
      (registerAll s ts)).first_position tid = _
  rw [retireFold_lookup]
  by_cases hin : tid ∈ frameIds ts
  · have hnd : tid ∉ disappearedIds (registerAll s ts) (frameIds ts) := by
      rw [mem_disappearedIds]
      intro hcon
      exact hcon.2 hin
    simp [hin, hnd]
  · by_cases hk : tid ∈ keysOf (registerAll s ts).first_position
    · have hd : tid ∈ disappearedIds (registerAll s ts) (frameIds ts) := by
        rw [mem_disappearedIds]
        exact ⟨hk, hin⟩
      simp [hin, hd]
    · have hd : tid ∉ disappearedIds (registerAll s ts) (frameIds ts) := by
        rw [mem_disappearedIds]
        intro hcon
        exact hk hcon.1
      have hnone : flookup (registerAll s ts).first_position tid = none :=
        (flookup_eq_none_iff _ _).mpr hk
      simp [hin, hd, hnone]

theorem update_tracks_mem_keys (s : CState) (ts : List CTrack) (tid : Nat) :
    tid ∈ keysOf (update_tracks s ts).first_position ↔ tid ∈ frameIds ts := by
  rw [← flookup_isSome_iff, update_tracks_lookup]
  by_cases hin : tid ∈ frameIds ts
  · simp only [hin, if_true, iff_true]
    rw [flookup_isSome_iff, registerAll_mem_keys]
    exact Or.inr hin
  · simp [hin]

theorem update_tracks_total (s : CState) (ts : List CTrack)
    (h : (keysOf s.first_position).Nodup) :
    total (update_tracks s ts) =
      total s +
        ((eventsOf s ts).filter (fun tid => liveNonIgn (registerAll s ts) tid)).length := by
  show total ((disappearedIds (registerAll s ts) (frameIds ts)).foldl retireOne
      (registerAll s ts)) = _
  rw [retireFold_total _ _ (disappearedIds_nodup _ _ (registerAll_nodup ts s h))]
  have htot : total (registerAll s ts) = total s := by
    rw [total_eq_totalC, total_eq_totalC, registerAll_counters]
  rw [htot]
  rfl

theorem update_tracks_counters_apply (s : CState) (ts : List CTrack) (d : Direction)
    (h : (keysOf s.first_position).Nodup) :
    (update_tracks s ts).counters d =
      s.counters d +
        ((eventsOf s ts).filter (fun tid => countsD (registerAll s ts) tid d)).length := by
  show ((disappearedIds (registerAll s ts) (frameIds ts)).foldl retireOne
      (registerAll s ts)).counters d = _
  rw [retireFold_counters _ _ d (disappearedIds_nodup _ _ (registerAll_nodup ts s h))]
  rw [registerAll_counters]
  rfl

theorem abs_lt_abs_iff_natAbs (a b : Int) : |a| < |b| ↔ a.natAbs < b.natAbs := by
  rw [Int.abs_eq_natAbs, Int.abs_eq_natAbs, Nat.cast_lt]

theorem abs_le_abs_iff_natAbs (a b : Int) : |a| ≤ |b| ↔ a.natAbs ≤ b.natAbs := by
  rw [Int.abs_eq_natAbs, Int.abs_eq_natAbs, Nat.cast_le]

theorem classify_cases (dx dy : Int) :
    (classify dx dy = .West ↔ |dy| < |dx| ∧ dx < 0) ∧
    (classify dx dy = .East ↔ |dy| < |dx| ∧ 0 ≤ dx) ∧
    (classify dx dy = .North ↔ |dx| ≤ |dy| ∧ dy < 0) ∧
    (classify dx dy = .South ↔ |dx| ≤ |dy| ∧ 0 ≤ dy) := by
  rw [abs_lt_abs_iff_natAbs, abs_le_abs_iff_natAbs]
  by_cases h1 : dy.natAbs < dx.natAbs
  · by_cases h2 : dx < 0 <;> (simp [classify, h1, h2]; try omega)
  · by_cases h3 : dy < 0 <;> (simp [classify, h1, h3]; try omega)

/-- C2: direction classification.  For every retired non-ignored track with
first centroid `(fx, fy)` and frame center `(cx, cy) = (w // 2, h // 2)`,
with `dx = fx - cx` and `dy = fy - cy`, the counter increments exactly one
bucket: West when `|dx| > |dy|` and `dx < 0`, East when `|dx| > |dy|` and
`dx ≥ 0`, North when `|dy| ≥ |dx|` and `dy < 0`, South when `|dy| ≥ |dx|`
and `dy ≥ 0`; in particular with center `(320, 240)` a first centroid
`(50, 200)` classifies West and `(310, 10)` classifies North. -/
theorem C2_direction_classification :
    (∀ dx dy : Int,
        (classify dx dy = .West ↔ |dy| < |dx| ∧ dx < 0) ∧
        (classify dx dy = .East ↔ |dy| < |dx| ∧ 0 ≤ dx) ∧
        (classify dx dy = .North ↔ |dx| ≤ |dy| ∧ dy < 0) ∧
        (classify dx dy = .South ↔ |dx| ≤ |dy| ∧ 0 ≤ dy)) ∧
    (∀ (s : CState) (tid : Nat) (fx fy : Int),
        flookup s.first_position tid = some (false, fx, fy) →
        (retireOne s tid).counters (classify (fx - centerX s) (fy - centerY s)) =
            s.counters (classify (fx - centerX s) (fy - centerY s)) + 1 ∧
          ∀ d, d ≠ classify (fx - centerX s) (fy - centerY s) →
            (retireOne s tid).counters d = s.counters d) ∧
    (centerX (mkCounter 640 480 true) = 320 ∧ centerY (mkCounter 640 480 true) = 240) ∧
    classify (50 - 320) (200 - 240) = .West ∧
    classify (310 - 320) (10 - 240) = .North := by
  refine ⟨classify_cases, ?_, by constructor <;> decide, by decide, by decide⟩
  intro s tid fx fy hx
  constructor
  · rw [retireOne_counters_apply]
    have hc : countsD s tid (classify (fx - centerX s) (fy - centerY s)) = true := by
      simp [countsD, hx]
    simp [hc]
  · intro d hd
    rw [retireOne_counters_apply]
    have hne : classify (fx - centerX s) (fy - centerY s) ≠ d := fun hh => hd hh.symm
    have hc : countsD s tid d = false := by
      simp [countsD, hx, hne]
    simp [hc]

theorem C2_direction_classification_witness :
    (retireOne C2ws 5).counters Direction.West = C2ws.counters Direction.West + 1 := by
  have h := (C2_direction_classification.2.1 C2ws 5 50 200 (by decide)).1
  have hcl : classify ((50 : Int) - centerX C2ws) ((200 : Int) - centerY C2ws) =
      Direction.West := by decide
  rw [hcl] at h
  exact h

/-- C7: tally invariant.  `get_counts` always returns exactly the four
direction keys, in a fixed order; every value is a non-negative integer;
`update_tracks` never decreases any bucket; and `reset` is the operation
that sets all four buckets back to 0. -/
theorem C7_tally_invariant :
    (∀ s : CState, (get_counts s).map Prod.fst = ["North", "South", "East", "West"]) ∧
    (∀ s : CState, ∀ p ∈ get_counts s, 0 ≤ (p.2 : Int)) ∧
    (∀ (s : CState) (ts : List CTrack) (d : Direction),
        s.counters d ≤ (update_tracks s ts).counters d) ∧
    (∀ s : CState, get_counts (resetCounter s) =
        [("North", 0), ("South", 0), ("East", 0), ("West", 0)]) := by
  refine ⟨fun s => rfl, ?_, update_tracks_counters_mono, fun s => rfl⟩
  intro s p _
  exact Int.natCast_nonneg p.2

/-- C9: repeated-frame idempotence.  Feeding the identical track list to
`update_tracks` twice in a row leaves every tally bucket unchanged by the
second call: all ids registered by the first call are still present, so the
second call retires nothing. -/
theorem C9_repeated_frame_idempotent (s : CState) (ts : List CTrack) :
    get_counts (update_tracks (update_tracks s ts) ts) =
      get_counts (update_tracks s ts) := by
  have hdis : disappearedIds (registerAll (update_tracks s ts) ts) (frameIds ts) = [] := by
    show (keysOf (registerAll (update_tracks s ts) ts).first_position).filter _ = []
    rw [List.filter_eq_nil_iff]
    intro tid htid
    have hmem := (registerAll_mem_keys ts (update_tracks s ts) tid).mp htid
    have hin : tid ∈ frameIds ts := by
      rcases hmem with h | h
      · exact (update_tracks_mem_keys s ts tid).mp h
      · exact h
    simp [hin]
  show get_counts ((disappearedIds (registerAll (update_tracks s ts) ts)
      (frameIds ts)).foldl retireOne (registerAll (update_tracks s ts) ts)) = _
  rw [hdis]
  simp [get_counts, List.foldl_nil, registerAll_counters]

theorem registerAll_keys_structure (ts : List CTrack) : ∀ s : CState,
    ∃ ks : List Nat,
      keysOf (registerAll s ts).first_position = keysOf s.first_position ++ ks ∧
        ∀ k ∈ ks, k ∈ frameIds ts := by
  induction ts with
  | nil =>
      intro s
      exact ⟨[], by simp [registerAll], by simp⟩
  | cons t ts ih =>
      intro s
      obtain ⟨ks, hks, hmem⟩ := ih (registerTrack s t)
      have hstep : ∃ hd : List Nat,
          keysOf (registerTrack s t).first_position = keysOf s.first_position ++ hd ∧
            ∀ k ∈ hd, k = t.id := by
        cases hx : flookup s.first_position t.id with
        | some e =>
            refine ⟨[], ?_, by simp⟩
            simp [registerTrack, hx]
        | none =>
            refine ⟨[t.id], ?_, by simp⟩
            by_cases hex : s.exclude_pedestrians && (t.class_id == some 0) <;>
              simp [registerTrack, hx, hex, keysOf]
      obtain ⟨hd, hhd, hhd2⟩ := hstep
      refine ⟨hd ++ ks, ?_, ?_⟩
      · show keysOf (registerAll (registerTrack s t) ts).first_position = _
        rw [hks, hhd, List.append_assoc]
      · intro k hk
        rcases List.mem_append.mp hk with h | h
        · have := hhd2 k h
          subst this
          simp [frameIds]
        · have := hmem k h
          simp only [frameIds, List.map_cons, List.mem_cons]
          right
          exact this

theorem filter_eq_single_of {l : List Nat} {p : Nat → Bool} {a : Nat}
    (hnd : l.Nodup) (ha : a ∈ l) (hpa : p a = true)
    (hother : ∀ b ∈ l, b ≠ a → p b = false) : l.filter p = [a] := by
  induction l with
  | nil => cases ha
  | cons x l ih =>
      have hnd' : l.Nodup := (List.nodup_cons.mp hnd).2
      have hxl : x ∉ l := (List.nodup_cons.mp hnd).1
      by_cases hxa : x = a
      · subst hxa
        have hrest : l.filter p = [] := by
          rw [List.filter_eq_nil_iff]
          intro b hb
          have hne : b ≠ x := fun hh => hxl (hh ▸ hb)
          simp [hother b (List.mem_cons_of_mem _ hb) hne]
        simp [List.filter_cons, hpa, hrest]
      · have hax : a ∈ l := by
          rcases List.mem_cons.mp ha with h | h
          · exact absurd h.symm hxa
          · exact h
        have hpx : p x = false := hother x (List.mem_cons_self _ _) (fun hh => hxa hh)
        rw [List.filter_cons]
        simp only [hpx]
        exact ih hnd' hax (fun b hb hne => hother b (List.mem_cons_of_mem _ hb) hne)

/-- C3: pedestrian exclusion.  With exclusion enabled, a track whose
first-observed class id is 0 is registered with the ignored tag; later
observations never change that tag; and the frame in which such a track
disappears (all other live ids still present) leaves `get_counts`
unchanged, regardless of the track's trajectory in between. -/
theorem C3_pedestrian_exclusion :
    (∀ (s : CState) (t : CTrack),
        s.exclude_pedestrians = true → t.class_id = some 0 →
        flookup s.first_position t.id = none →
        flookup (registerTrack s t).first_position t.id =
          some (true, t.centroid.1, t.centroid.2)) ∧
    (∀ (s : CState) (t : CTrack) (e : Bool × Int × Int),
        flookup s.first_position t.id = some e →
        flookup (registerTrack s t).first_position t.id = some e) ∧
    (∀ (s : CState) (ts : List CTrack) (tid : Nat) (fx fy : Int),
        flookup s.first_position tid = some (true, fx, fy) →
        (keysOf s.first_position).Nodup →
        tid ∉ frameIds ts →
        (∀ tid2 ∈ keysOf s.first_position, tid2 ≠ tid → tid2 ∈ frameIds ts) →
        get_counts (update_tracks s ts) = get_counts s) := by
  refine ⟨?_, ?_, ?_⟩
  · intro s t hexcl hcls hnone
    rw [registerTrack_lookup, hnone]
    simp [entryFor, hexcl, hcls]
  · intro s t e he
    rw [registerTrack_lookup, he]
  · intro s ts tid fx fy hx hnd hout hall
    have hlook1 : flookup (registerAll s ts).first_position tid = some (true, fx, fy) := by
      rw [registerAll_lookup, hx]
    have hdis : disappearedIds (registerAll s ts) (frameIds ts) = [tid] := by
      obtain ⟨ks, hks, hksmem⟩ := registerAll_keys_structure ts s
      show (keysOf (registerAll s ts).first_position).filter _ = [tid]
      rw [hks, List.filter_append]
      have h2 : ks.filter (fun tid2 => !((frameIds ts).contains tid2)) = [] := by
        rw [List.filter_eq_nil_iff]
        intro b hb
        simp [hksmem b hb]
      have h1 : (keysOf s.first_position).filter
          (fun tid2 => !((frameIds ts).contains tid2)) = [tid] := by
        apply filter_eq_single_of hnd
        · rw [← flookup_isSome_iff, hx]
          rfl
        · simp [hout]
        · intro b hb hne
          simp [hall b hb hne]
      rw [h1, h2]
      rfl
    show get_counts ((disappearedIds (registerAll s ts) (frameIds ts)).foldl retireOne
        (registerAll s ts)) = _
    rw [hdis]
    simp only [List.foldl_cons, List.foldl_nil]
    have hcnt : (retireOne (registerAll s ts) tid).counters = (registerAll s ts).counters := by
      funext d
      rw [retireOne_counters_apply]
      have hc : countsD (registerAll s ts) tid d = false := by
        simp [countsD, hlook1]
      simp [hc]
    simp [get_counts, hcnt, registerAll_counters]

theorem mem_keysFin (s : CState) (tid : Nat) :
    tid ∈ keysFin s ↔ tid ∈ keysOf s.first_position := by
  simp [keysFin]

theorem mem_eventsOf (s : CState) (ts : List CTrack) (tid : Nat) :
    tid ∈ eventsOf s ts ↔
      tid ∈ keysOf (registerAll s ts).first_position ∧ tid ∉ frameIds ts :=
  mem_disappearedIds _ _ _

theorem liveNonIgn_eq (s : CState) (tid : Nat) (b : Bool) (fx fy : Int)
    (h : flookup s.first_position tid = some (b, fx, fy)) :
    liveNonIgn s tid = !b := by
  cases b <;> simp [liveNonIgn, h]

theorem find?_eq_none_iff_frameIds (ts : List CTrack) (tid : Nat) :
    ts.find? (fun t => t.id == tid) = none ↔ tid ∉ frameIds ts := by
  rw [List.find?_eq_none]
  simp only [frameIds, List.mem_map, beq_iff_eq]
  constructor
  · rintro h ⟨t, ht, hid⟩
    exact h t ht hid
  · intro h t ht hid
    exact h ⟨t, ht, hid⟩

theorem seenIds_nil : seenIds [] = ∅ := rfl

theorem seenIds_cons (ts : List CTrack) (r : List (List CTrack)) :
    seenIds (ts :: r) = (frameIds ts).toFinset ∪ seenIds r := by
  simp [seenIds]

theorem chainB_cons (live dead : Finset Nat) (ts : List CTrack)
    (rest : List (List CTrack)) :
    chainB live dead (ts :: rest) =
      (decide (Disjoint ((frameIds ts).toFinset) dead) &&
        chainB ((frameIds ts).toFinset)
          (dead ∪ (live \ (frameIds ts).toFinset)) rest) := rfl

theorem get_counts_sum (s : CState) :
    ((get_counts s).map Prod.snd).sum = total s := by
  simp [get_counts, total]
  omega

theorem c1_step (excl : Bool) (flag : Nat → Bool) (seen : Finset Nat)
    (s : CState) (ts : List CTrack)
    (hInv : InvC1 excl flag seen s)
    (hFresh : ∀ tid t, tid ∉ seen → ts.find? (fun tr => tr.id == tid) = some t →
        (excl && (t.class_id == some 0)) = flag tid)
    (hNoRet : ∀ tid, tid ∈ (frameIds ts).toFinset → tid ∈ seen → tid ∈ keysFin s) :
    InvC1 excl flag (seen ∪ (frameIds ts).toFinset) (update_tracks s ts) ∧
      keysFin (update_tracks s ts) = (frameIds ts).toFinset := by
  obtain ⟨hexcl, hnd, hsub, hflags, htot⟩ := hInv
  have hkeys : keysFin (update_tracks s ts) = (frameIds ts).toFinset := by
    ext tid
    rw [mem_keysFin, update_tracks_mem_keys, List.mem_toFinset]
  refine ⟨⟨?_, update_tracks_nodup s ts hnd, ?_, ?_, ?_⟩, hkeys⟩
  · rw [update_tracks_excl]
    exact hexcl
  · rw [hkeys]
    exact Finset.subset_union_right
  · intro tid b fx fy hl
    rw [update_tracks_lookup] at hl
    by_cases hin : tid ∈ frameIds ts
    · rw [if_pos hin, registerAll_lookup] at hl
      cases hx : flookup s.first_position tid with
      | some e =>
          rw [hx] at hl
          obtain ⟨b0, fx0, fy0⟩ := e
          simp only [Option.some.injEq, Prod.mk.injEq] at hl
          obtain ⟨hb, _, _⟩ := hl
          exact hb ▸ hflags tid b0 fx0 fy0 hx
      | none =>
          rw [hx] at hl
          cases hf : ts.find? (fun tr => tr.id == tid) with
          | none =>
              rw [hf] at hl
              exact absurd hl (by simp)
          | some t =>
              rw [hf] at hl
              simp only [Option.map_some', Option.some.injEq, entryFor,
                Prod.mk.injEq] at hl
              obtain ⟨hb, _, _⟩ := hl
              have hfree : tid ∉ seen := by
                intro hseen
                have hK := hNoRet tid (List.mem_toFinset.mpr hin) hseen
                rw [mem_keysFin, ← flookup_isSome_iff, hx] at hK
                exact absurd hK (by simp)
              rw [← hb, hexcl]
              exact hFresh tid t hfree hf
    · rw [if_neg hin] at hl
      exact absurd hl (by simp)
  · rw [update_tracks_total s ts hnd]
    have hk1 : ∀ tid : Nat,
        tid ∈ (eventsOf s ts).filter (fun tid => liveNonIgn (registerAll s ts) tid) ↔
          tid ∈ keysFin s ∧ tid ∉ (frameIds ts).toFinset ∧ flag tid = false := by
      intro tid
      rw [List.mem_filter, mem_eventsOf]
      constructor
      · rintro ⟨⟨hkeys1, hcur⟩, hlive⟩
        have hinK : tid ∈ keysOf s.first_position := by
          rcases (registerAll_mem_keys ts s tid).mp hkeys1 with h | h
          · exact h
          · exact absurd h hcur
        cases hx : flookup s.first_position tid with
        | none =>
            exact absurd hinK ((flookup_eq_none_iff _ _).mp hx)
        | some e =>
            obtain ⟨b, fx, fy⟩ := e
            have hb := hflags tid b fx fy hx
            have hl1 : flookup (registerAll s ts).first_position tid =
                some (b, fx, fy) := by
              rw [registerAll_lookup, hx]
            rw [liveNonIgn_eq _ _ _ _ _ hl1] at hlive
            have hbf : b = false := by
              cases b
              · rfl
              · exact absurd hlive (by simp)
            refine ⟨(mem_keysFin s tid).mpr hinK, fun hc => hcur (List.mem_toFinset.mp hc), ?_⟩
            rw [← hb, hbf]
      · rintro ⟨hK, hFc, hflag⟩
        have hinK : tid ∈ keysOf s.first_position := (mem_keysFin s tid).mp hK
        have hcur : tid ∉ frameIds ts := fun hc => hFc (List.mem_toFinset.mpr hc)
        have hisSome : (flookup s.first_position tid).isSome :=
          (flookup_isSome_iff _ _).mpr hinK
        cases hx : flookup s.first_position tid with
        | none =>
            rw [hx] at hisSome
            exact absurd hisSome (by simp)
        | some e =>
            obtain ⟨b, fx, fy⟩ := e
            have hb := hflags tid b fx fy hx
            have hbf : b = false := by rw [hb, hflag]
            have hl1 : flookup (registerAll s ts).first_position tid =
                some (b, fx, fy) := by
              rw [registerAll_lookup, hx]
            refine ⟨⟨?_, hcur⟩, ?_⟩
            · rw [← flookup_isSome_iff, hl1]
              rfl
            · rw [liveNonIgn_eq _ _ _ _ _ hl1, hbf]
              rfl
    have hnodupEv :
        ((eventsOf s ts).filter (fun tid => liveNonIgn (registerAll s ts) tid)).Nodup :=
      (disappearedIds_nodup _ _ (registerAll_nodup ts s hnd)).filter _
    have hlen : ((eventsOf s ts).filter (fun tid => liveNonIgn (registerAll s ts) tid)).length =
        ((keysFin s \ (frameIds ts).toFinset).filter (fun tid => flag tid = false)).card := by
      rw [← List.toFinset_card_of_nodup hnodupEv]
      congr 1
      ext tid
      rw [List.mem_toFinset, hk1 tid, Finset.mem_filter, Finset.mem_sdiff]
      tauto
    rw [htot, hlen, hkeys]
    have hunion :
        ((seen ∪ (frameIds ts).toFinset) \
            (frameIds ts).toFinset).filter (fun tid => flag tid = false) =
          ((seen \ keysFin s).filter (fun tid => flag tid = false)) ∪
            ((keysFin s \ (frameIds ts).toFinset).filter (fun tid => flag tid = false)) := by
      ext tid
      simp only [Finset.mem_filter, Finset.mem_sdiff, Finset.mem_union]
      constructor
      · rintro ⟨⟨hseenF, hnotF⟩, hfl⟩
        have hseen2 : tid ∈ seen := by
          rcases hseenF with h | h
          · exact h
          · exact absurd h hnotF
        by_cases hKk : tid ∈ keysFin s
        · right
          exact ⟨⟨hKk, hnotF⟩, hfl⟩
        · left
          exact ⟨⟨hseen2, hKk⟩, hfl⟩
      · rintro (⟨⟨hseen2, hnK⟩, hfl⟩ | ⟨⟨hK, hnF⟩, hfl⟩)
        · have hnF : tid ∉ (frameIds ts).toFinset := fun hF => hnK (hNoRet tid hF hseen2)
          exact ⟨⟨Or.inl hseen2, hnF⟩, hfl⟩
        · exact ⟨⟨Or.inl (hsub hK), hnF⟩, hfl⟩
    have hdisj : Disjoint
        ((seen \ keysFin s).filter (fun tid => flag tid = false))
        ((keysFin s \ (frameIds ts).toFinset).filter (fun tid => flag tid = false)) := by
      rw [Finset.disjoint_left]
      intro a ha hb
      simp only [Finset.mem_filter, Finset.mem_sdiff] at ha hb
      exact ha.1.2 hb.1.1
    rw [hunion, Finset.card_union_of_disjoint hdisj]

theorem c1_run (excl : Bool) (flag : Nat → Bool) :
    ∀ (rest : List (List CTrack)) (s : CState) (seen dead : Finset Nat),
      InvC1 excl flag seen s →
      chainB (keysFin s) dead rest = true →
      (seen \ keysFin s) ⊆ dead →
      (∀ tid t, tid ∉ seen → firstObs tid rest = some t →
          (excl && (t.class_id == some 0)) = flag tid) →
      InvC1 excl flag (seen ∪ seenIds rest) (runUpd s rest) := by
  intro rest
  induction rest with
  | nil =>
      intro s seen dead hInv _ _ _
      simpa [runUpd, seenIds_nil] using hInv
  | cons ts r ih =>
      intro s seen dead hInv hchain hdead hflagF
      rw [chainB_cons, Bool.and_eq_true] at hchain
      have hdisjP : Disjoint ((frameIds ts).toFinset) dead := of_decide_eq_true hchain.1
      have hNoRet : ∀ tid, tid ∈ (frameIds ts).toFinset → tid ∈ seen → tid ∈ keysFin s := by
        intro tid hF hseen
        by_contra hne
        have hd : tid ∈ dead := hdead (Finset.mem_sdiff.mpr ⟨hseen, hne⟩)
        exact (Finset.disjoint_left.mp hdisjP hF) hd
      have hFresh : ∀ tid t, tid ∉ seen → ts.find? (fun tr => tr.id == tid) = some t →
          (excl && (t.class_id == some 0)) = flag tid := by
        intro tid t hns hf
        apply hflagF tid t hns
        simp [firstObs, hf]
      obtain ⟨hInv', hkeys'⟩ := c1_step excl flag seen s ts hInv hFresh hNoRet
      have hchainIH : chainB (keysFin (update_tracks s ts))
          (dead ∪ (keysFin s \ (frameIds ts).toFinset)) r = true := by
        rw [hkeys']
        exact hchain.2
      have hdeadIH : ((seen ∪ (frameIds ts).toFinset) \ keysFin (update_tracks s ts)) ⊆
          dead ∪ (keysFin s \ (frameIds ts).toFinset) := by
        rw [hkeys']
        intro x hx
        rw [Finset.mem_sdiff, Finset.mem_union] at hx
        obtain ⟨hx1, hx2⟩ := hx
        rcases hx1 with h | h
        · by_cases hk : x ∈ keysFin s
          · exact Finset.mem_union_right _ (Finset.mem_sdiff.mpr ⟨hk, hx2⟩)
          · exact Finset.mem_union_left _ (hdead (Finset.mem_sdiff.mpr ⟨h, hk⟩))
        · exact absurd h hx2
      have hflagIH : ∀ tid t, tid ∉ seen ∪ (frameIds ts).toFinset →
          firstObs tid r = some t → (excl && (t.class_id == some 0)) = flag tid := by
        intro tid t hns hf
        have hnseen : tid ∉ seen := fun hh => hns (Finset.mem_union_left _ hh)
        have hnF : tid ∉ (frameIds ts).toFinset := fun hh => hns (Finset.mem_union_right _ hh)
        apply hflagF tid t hnseen
        have hfind : ts.find? (fun tr => tr.id == tid) = none :=
          (find?_eq_none_iff_frameIds ts tid).mpr
            (fun hh => hnF (List.mem_toFinset.mpr hh))
        simp [firstObs, hfind, hf]
      have hres := ih (update_tracks s ts) (seen ∪ (frameIds ts).toFinset) _
        hInv' hchainIH hdeadIH hflagIH
      rw [seenIds_cons]
      show InvC1 excl flag _ (runUpd (update_tracks s ts) r)
      rw [← Finset.union_assoc]
      exact hres

/-- C1: conservation.  For a session whose track-id stream respects the
tracker contract (no id reappears after disappearing, `chainB`) and that is
closed by a final frame with no tracks, the sum of the four buckets of the
final `get_counts` snapshot equals the number of distinct track identities
delivered to the counter (i.e. those that reached Confirmed, since the
tracker only emits confirmed tracks) that are not ignored. -/
theorem C1_conservation (w h : Nat) (excl : Bool) (fss : List (List CTrack))
    (hchain : chainB ∅ ∅ fss = true) :
    ((get_counts (runUpd (mkCounter w h excl) (fss ++ [[]]))).map Prod.snd).sum =
      ((seenIds fss).filter (fun tid => ignFlag excl fss tid = false)).card := by
  have hk0 : keysFin (mkCounter w h excl) = ∅ := by
    simp [keysFin, mkCounter, keysOf]
  have hbase : InvC1 excl (ignFlag excl fss) ∅ (mkCounter w h excl) := by
    refine ⟨rfl, by simp [mkCounter, keysOf], ?_, ?_, ?_⟩
    · rw [hk0]
    · intro tid b fx fy hl
      simp [mkCounter, flookup] at hl
    · simp [total, mkCounter, hk0]
  have hrun := c1_run excl (ignFlag excl fss) fss (mkCounter w h excl) ∅ ∅ hbase
    (by rw [hk0]; exact hchain) (by simp)
    (by
      intro tid t _ hf
      simp [ignFlag, hf])
  obtain ⟨hInv2, hkeys2⟩ := c1_step excl (ignFlag excl fss) (∅ ∪ seenIds fss)
    (runUpd (mkCounter w h excl) fss) [] hrun
    (by
      intro tid t _ hf
      simp [List.find?] at hf)
    (by
      intro tid hF _
      simp [frameIds] at hF)
  obtain ⟨_, _, _, _, htotF⟩ := hInv2
  have hru : runUpd (mkCounter w h excl) (fss ++ [[]]) =
      update_tracks (runUpd (mkCounter w h excl) fss) [] := by
    simp [runUpd, List.foldl_append]
  rw [hru, get_counts_sum, htotF, hkeys2]
  congr 1
  simp [frameIds]

theorem C1_conservation_witness :
    chainB ∅ ∅ [[CTrack.mk 1 (50, 200) (some 2)], [CTrack.mk 1 (50, 200) (some 2)]] = true ∧
    ((get_counts (runUpd (mkCounter 640 480 true)
        ([[CTrack.mk 1 (50, 200) (some 2)], [CTrack.mk 1 (50, 200) (some 2)]] ++ [[]]))).map
      Prod.snd).sum =
      ((seenIds [[CTrack.mk 1 (50, 200) (some 2)], [CTrack.mk 1 (50, 200) (some 2)]]).filter
        (fun tid =>
          ignFlag true [[CTrack.mk 1 (50, 200) (some 2)],
            [CTrack.mk 1 (50, 200) (some 2)]] tid = false)).card :=
  ⟨by decide, C1_conservation 640 480 true _ (by decide)⟩

theorem keysFin_update_tracks (s : CState) (ts : List CTrack) :
    keysFin (update_tracks s ts) = (frameIds ts).toFinset := by
  ext tid
  rw [mem_keysFin, update_tracks_mem_keys, List.mem_toFinset]

theorem mem_eventsOf_simple (s : CState) (ts : List CTrack) (tid : Nat) :
    tid ∈ eventsOf s ts ↔ tid ∈ keysOf s.first_position ∧ tid ∉ frameIds ts := by
  rw [mem_eventsOf]
  constructor
  · rintro ⟨hk, hc⟩
    rcases (registerAll_mem_keys ts s tid).mp hk with h | h
    · exact ⟨h, hc⟩
    · exact absurd h hc
  · rintro ⟨hk, hc⟩
    exact ⟨(registerAll_mem_keys ts s tid).mpr (Or.inl hk), hc⟩

theorem c4_run :
    ∀ (rest : List (List CTrack)) (s : CState) (dead : Finset Nat),
      (keysOf s.first_position).Nodup →
      Disjoint (keysFin s) dead →
      chainB (keysFin s) dead rest = true →
      ((runEvents s rest).flatten).Nodup ∧
        ∀ tid ∈ (runEvents s rest).flatten, tid ∉ dead := by
  intro rest
  induction rest with
  | nil =>
      intro s dead _ _ _
      simp [runEvents]
  | cons ts r ih =>
      intro s dead hnd hdisj hchain
      rw [chainB_cons, Bool.and_eq_true] at hchain
      have hdisjF : Disjoint ((frameIds ts).toFinset) dead := of_decide_eq_true hchain.1
      have hEnd : (eventsOf s ts).Nodup :=
        disappearedIds_nodup _ _ (registerAll_nodup ts s hnd)
      have hheadKF : ∀ tid ∈ eventsOf s ts,
          tid ∈ keysFin s ∧ tid ∉ (frameIds ts).toFinset := by
        intro tid htid
        obtain ⟨hk, hc⟩ := (mem_eventsOf_simple s ts tid).mp htid
        exact ⟨(mem_keysFin s tid).mpr hk, fun hm => hc (List.mem_toFinset.mp hm)⟩
      have hdisjIH : Disjoint ((frameIds ts).toFinset)
          (dead ∪ (keysFin s \ (frameIds ts).toFinset)) := by
        rw [Finset.disjoint_union_right]
        exact ⟨hdisjF, Finset.disjoint_sdiff⟩
      have ihres := ih (update_tracks s ts) (dead ∪ (keysFin s \ (frameIds ts).toFinset))
        (update_tracks_nodup s ts hnd)
        (by rw [keysFin_update_tracks]; exact hdisjIH)
        (by rw [keysFin_update_tracks]; exact hchain.2)
      have hjoin : (runEvents s (ts :: r)).flatten =
          eventsOf s ts ++ (runEvents (update_tracks s ts) r).flatten := rfl
      constructor
      · rw [hjoin, List.nodup_append]
        refine ⟨hEnd, ihres.1, ?_⟩
        intro tid htid htid2
        obtain ⟨hK, hF⟩ := hheadKF tid htid
        have hdead2 : tid ∈ dead ∪ (keysFin s \ (frameIds ts).toFinset) :=
          Finset.mem_union_right _ (Finset.mem_sdiff.mpr ⟨hK, hF⟩)
        exact ihres.2 tid htid2 hdead2
      · intro tid htid
        rw [hjoin, List.mem_append] at htid
        rcases htid with h | h
        · obtain ⟨hK, _⟩ := hheadKF tid h
          exact Finset.disjoint_left.mp hdisj hK
        · intro hdd
          exact ihres.2 tid h (Finset.mem_union_left _ hdd)

/-- C4: idempotent retirement.  In every run whose track-id stream respects
the tracker contract (no id reappears after disappearing, `chainB`), no id
is handed to the retirement loop — where the counter makes its one counting
decision, incrementing a bucket or discarding an ignored track — more than
once across all `update_tracks` calls of the session. -/
theorem C4_idempotent_retirement (w h : Nat) (excl : Bool) (fss : List (List CTrack))
    (hchain : chainB ∅ ∅ fss = true) :
    ((runEvents (mkCounter w h excl) fss).flatten).Nodup := by
  have hk0 : keysFin (mkCounter w h excl) = ∅ := by
    simp [keysFin, mkCounter, keysOf]
  exact (c4_run fss (mkCounter w h excl) ∅ (by simp [mkCounter, keysOf])
    (by simp [hk0]) (by rw [hk0]; exact hchain)).1

theorem C4_idempotent_retirement_witness :
    chainB ∅ ∅ [[CTrack.mk 1 (50, 200) (some 2)], []] = true ∧
    ((runEvents (mkCounter 640 480 true) [[CTrack.mk 1 (50, 200) (some 2)], []]).flatten).Nodup :=
  ⟨by decide, C4_idempotent_retirement 640 480 true _ (by decide)⟩

/-- C10: tracker output fallback.  A tracked object emitted without an
associated last detection is reported with a fabricated bounding box
`(est.x - 10, est.y - 10, est.x + 10, est.y + 10)` — 20 pixels wide,
20 pixels tall, centered on the estimated centroid — and with `None` class
id, class name and confidence. -/
theorem C10_tracker_fallback (tid : Nat) (ex ey : Int) :
    formatTracked tid (ex, ey) none =
      { id := tid, bbox := (ex - 10, ey - 10, ex + 10, ey + 10),
        centroid := (ex, ey), class_id := none, class_name := none,
        conf := none } ∧
    ((ex + 10) - (ex - 10) = 20 ∧ (ey + 10) - (ey - 10) = 20) ∧
    ((ex - 10 + (ex + 10)).tdiv 2 = ex ∧ (ey - 10 + (ey + 10)).tdiv 2 = ey) := by
  refine ⟨rfl, ⟨by ring, by ring⟩, ?_, ?_⟩
  · have h2 : ex - 10 + (ex + 10) = 2 * ex := by ring
    rw [h2]
    exact Int.mul_tdiv_cancel_left ex (by norm_num)
  · have h2 : ey - 10 + (ey + 10) = 2 * ey := by ring
    rw [h2]
    exact Int.mul_tdiv_cancel_left ey (by norm_num)

/-- C6 counterexample: the claim that a degenerate (inverted) bounding box
is rejected and spawns no track is false.  `degDet` has x1 = 10 > x2 = 5
and y1 = 10 > y2 = 5, yet a frame containing only it leaves the tracker
with one live track spawned from it (centroid (7, 7), its class), and the
counter registers that track. -/
theorem C6_counterexample :
    (degDet.x2 ≤ degDet.x1 ∧ degDet.y2 ≤ degDet.y1) ∧
    (procFrame false 1600 (mkPipe 640 480 true) [degDet]).tracker.live =
      [CTrack.mk 1 (7, 7) (some 2)] ∧
    keysOf (procFrame false 1600 (mkPipe 640 480 true)
        [degDet]).counter.first_position = [1] := by
  refine ⟨by decide, by decide, by decide⟩

/-- C6 amended: malformed detections are not rejected anywhere in the
pipeline — a detection with a degenerate or inverted box is converted to
its centroid like any other detection, participates in association, and
(from a fresh tracker) spawns a track; the frame is not aborted. -/
theorem C6_amended (d : Det) (n : Nat)
    ( _hdeg : d.x2 ≤ d.x1 ∨ d.y2 ≤ d.y1) :
    (stepFrame 1600 { nextId := n, live := [] } [d]).2 =
      [CTrack.mk n (detCentroid d) (some d.class_id)] := rfl

theorem C6_amended_witness :
    (degDet.x2 ≤ degDet.x1 ∨ degDet.y2 ≤ degDet.y1) ∧
    (stepFrame 1600 { nextId := 1, live := [] } [degDet]).2 =
      [CTrack.mk 1 (detCentroid degDet) (some degDet.class_id)] :=
  ⟨Or.inl (by decide), C6_amended degDet 1 (Or.inl (by decide))⟩

/-- C5 counterexample: pre-filtering pedestrians out of the detection
stream before association is not equivalent to ignoring them at the
Direction Counter.  On `c5frames` the pedestrian detection steals the
association with the live vehicle track, so the unfiltered run spawns a
second vehicle track and ends with West = 2, while the pre-filtered run
ends with West = 1. -/
theorem C5_counterexample :
    get_counts (processVideo true 1600 none 640 480 true c5frames).counter =
        [("North", 0), ("South", 0), ("East", 0), ("West", 1)] ∧
    get_counts (processVideo false 1600 none 640 480 true c5frames).counter =
        [("North", 0), ("South", 0), ("East", 0), ("West", 2)] ∧
    get_counts (processVideo true 1600 none 640 480 true c5frames).counter ≠
      get_counts (processVideo false 1600 none 640 480 true c5frames).counter := by
  refine ⟨by decide, by decide, by decide⟩

theorem processLoop_cap_take (pre : Bool) (thr2 N : Nat) (hN : 0 < N) :
    ∀ (frames : List (List Det)) (st : PState) (idx : Nat),
      processLoop pre thr2 (some N) st idx frames =
        processLoop pre thr2 none st idx (frames.take (N - idx)) := by
  intro frames
  induction frames with
  | nil =>
      intro st idx
      simp [processLoop]
  | cons f rest ih =>
      intro st idx
      by_cases hidx : idx < N
      · have hcap : capHit (some N) (idx + 1) = false := by
          simp only [capHit]
          have : ¬ (idx + 1 > N) := by omega
          simp [this]
        have htake : (f :: rest).take (N - idx) = f :: rest.take (N - idx - 1) := by
          obtain ⟨m, hm⟩ : ∃ m, N - idx = m + 1 := ⟨N - idx - 1, by omega⟩
          rw [hm, List.take_succ_cons]
          simp
        rw [htake]
        show (if capHit (some N) (idx + 1) = true then st
            else processLoop pre thr2 (some N) (procFrame pre thr2 st f) (idx + 1) rest) = _
        rw [hcap]
        simp only [Bool.false_eq_true, if_false]
        rw [ih (procFrame pre thr2 st f) (idx + 1)]
        show _ = (if capHit none (idx + 1) = true then st
            else processLoop pre thr2 none (procFrame pre thr2 st f) (idx + 1)
              (rest.take (N - idx - 1)))
        simp only [capHit, Bool.false_eq_true, if_false]
        have : N - (idx + 1) = N - idx - 1 := by omega
        rw [this]
      · have hcap : capHit (some N) (idx + 1) = true := by
          simp only [capHit]
          have h1 : idx + 1 > N := by omega
          have h2 : (N != 0) = true := by
            simp only [bne_iff_ne, ne_eq]
            omega
          simp [h1, h2]
        have htake : N - idx = 0 := by omega
        rw [htake]
        show (if capHit (some N) (idx + 1) = true then st
            else processLoop pre thr2 (some N) (procFrame pre thr2 st f) (idx + 1) rest) =
          processLoop pre thr2 none st idx []
        rw [hcap]
        simp [processLoop]

theorem processLoop_cap_zero (pre : Bool) (thr2 : Nat) :
    ∀ (frames : List (List Det)) (st : PState) (idx : Nat),
      processLoop pre thr2 (some 0) st idx frames =
        processLoop pre thr2 none st idx frames := by
  intro frames
  induction frames with
  | nil =>
      intro st idx
      rfl
  | cons f rest ih =>
      intro st idx
      show (if capHit (some 0) (idx + 1) = true then st else _) =
        (if capHit none (idx + 1) = true then st else _)
      simp only [capHit, bne_self_eq_false, Bool.false_and, Bool.false_eq_true, if_false]
      exact ih (procFrame pre thr2 st f) (idx + 1)

theorem processLoop_none_foldl (pre : Bool) (thr2 : Nat) :
    ∀ (frames : List (List Det)) (st : PState) (idx : Nat),
      processLoop pre thr2 none st idx frames =
        frames.foldl (procFrame pre thr2) st := by
  intro frames
  induction frames with
  | nil =>
      intro st idx
      rfl
  | cons f rest ih =>
      intro st idx
      show (if capHit none (idx + 1) = true then st else _) = _
      simp only [capHit, Bool.false_eq_true, if_false]
      exact ih (procFrame pre thr2 st f) (idx + 1)

/-- C8: frame cap.  With a cap N > 0 the processing loop is exactly the
uncapped loop run on the first N frames — at most N frames are processed
and nothing else happens afterwards (no in-flight track is flushed through
the retirement path); with a cap of 0 or no cap, the loop is unbounded and
folds over every frame of the stream. -/
theorem C8_frame_cap :
    (∀ (pre : Bool) (thr2 w h : Nat) (excl : Bool) (N : Nat), 0 < N →
        ∀ frames : List (List Det),
          processVideo pre thr2 (some N) w h excl frames =
            processVideo pre thr2 none w h excl (frames.take N)) ∧
    (∀ (pre : Bool) (thr2 w h : Nat) (excl : Bool) (frames : List (List Det)),
        processVideo pre thr2 (some 0) w h excl frames =
          processVideo pre thr2 none w h excl frames) ∧
    (∀ (pre : Bool) (thr2 w h : Nat) (excl : Bool) (frames : List (List Det)),
        processVideo pre thr2 none w h excl frames =
          frames.foldl (procFrame pre thr2) (mkPipe w h excl)) := by
  refine ⟨?_, ?_, ?_⟩
  · intro pre thr2 w h excl N hN frames
    show processLoop pre thr2 (some N) (mkPipe w h excl) 0 frames = _
    rw [processLoop_cap_take pre thr2 N hN frames (mkPipe w h excl) 0]
    rfl
  · intro pre thr2 w h excl frames
    exact processLoop_cap_zero pre thr2 frames (mkPipe w h excl) 0
  · intro pre thr2 w h excl frames
    exact processLoop_none_foldl pre thr2 frames (mkPipe w h excl) 0

theorem C8_frame_cap_witness :
    0 < 1 ∧
    processVideo false 1600 (some 1) 640 480 true [[TrafficCounter.vehA], [TrafficCounter.vehC]] =
      processVideo false 1600 none 640 480 true
        ([[TrafficCounter.vehA], [TrafficCounter.vehC]].take 1) :=
  ⟨by decide, C8_frame_cap.1 false 1600 640 480 true 1 (by decide) _⟩

theorem find?_filter_of {α : Type} (l : List α) (p q : α → Bool)
    (h : ∀ a ∈ l, q a = true → p a = true) :
    (l.filter p).find? q = l.find? q := by
  induction l with
  | nil => rfl
  | cons a l ih =>
      have ih' := ih (fun b hb hq => h b (List.mem_cons_of_mem _ hb) hq)
      cases hq : q a with
      | true =>
          have hp : p a = true := h a (List.mem_cons_self _ _) hq
          rw [List.filter_cons, if_pos hp, List.find?_cons, hq, List.find?_cons, hq]
      | false =>
          rw [List.filter_cons]
          by_cases hp : p a = true
          · rw [if_pos hp, List.find?_cons, hq, List.find?_cons, hq]
            exact ih'
          · rw [if_neg hp, List.find?_cons, hq]
            exact ih'

theorem mem_frameIds_iff (ts : List CTrack) (tid : Nat) :
    tid ∈ frameIds ts ↔ ∃ t ∈ ts, t.id = tid := by
  simp [frameIds]

theorem centerX_registerAll (s : CState) (ts : List CTrack) :
    centerX (registerAll s ts) = centerX s := by
  simp [centerX, registerAll_w]

theorem centerY_registerAll (s : CState) (ts : List CTrack) :
    centerY (registerAll s ts) = centerY s := by
  simp [centerY, registerAll_h]

theorem countsD_eq_true_iff (s : CState) (tid : Nat) (d : Direction) :
    countsD s tid d = true ↔
      ∃ fx fy, flookup s.first_position tid = some (false, fx, fy) ∧
        classify (fx - centerX s) (fy - centerY s) = d := by
  cases hx : flookup s.first_position tid with
  | none => simp [countsD, hx]
  | some e =>
      obtain ⟨b, fx, fy⟩ := e
      cases b with
      | true => simp [countsD, hx]
      | false =>
          simp only [countsD, hx, beq_iff_eq, Option.some.injEq, Prod.mk.injEq]
          constructor
          · intro hcl
            exact ⟨fx, fy, ⟨trivial, rfl, rfl⟩, hcl⟩
          · rintro ⟨fx2, fy2, ⟨-, h2a, h2b⟩, hcl⟩
            rw [h2a, h2b]
            exact hcl

theorem c5_step (clsOf : Nat → Option Nat) (sl sr : CState) (ts : List CTrack)
    (hInv : InvC5 clsOf sl sr)
    (hcls : ∀ t ∈ ts, t.class_id = clsOf t.id) :
    InvC5 clsOf (update_tracks sl ts)
      (update_tracks sr (ts.filter (fun t => !(t.class_id == some 0)))) := by
  obtain ⟨hexl, hexr, hw, hh, hndl, hndr, hcnt, heq, hzero⟩ := hInv
  have hw2 : centerX sl = centerX sr := by simp [centerX, hw]
  have hh2 : centerY sl = centerY sr := by simp [centerY, hh]
  set ts' := ts.filter (fun t => !(t.class_id == some 0)) with hts'
  have hsubids : ∀ tid, tid ∈ frameIds ts' → tid ∈ frameIds ts := by
    intro tid hm
    rw [mem_frameIds_iff] at hm ⊢
    obtain ⟨t, ht, hid⟩ := hm
    exact ⟨t, List.mem_of_mem_filter ht, hid⟩
  have hF1 : ∀ tid, clsOf tid ≠ some 0 → (tid ∈ frameIds ts ↔ tid ∈ frameIds ts') := by
    intro tid hnz
    constructor
    · intro hm
      rw [mem_frameIds_iff] at hm ⊢
      obtain ⟨t, ht, hid⟩ := hm
      refine ⟨t, List.mem_filter.mpr ⟨ht, ?_⟩, hid⟩
      have : t.class_id = clsOf tid := hid ▸ hcls t ht
      simp [this, hnz]
    · exact hsubids tid
  have hF2 : ∀ tid, clsOf tid = some 0 → tid ∉ frameIds ts' := by
    intro tid hz hm
    rw [mem_frameIds_iff] at hm
    obtain ⟨t, ht, hid⟩ := hm
    obtain ⟨htm, hpf⟩ := List.mem_filter.mp ht
    have : t.class_id = clsOf tid := hid ▸ hcls t htm
    rw [this, hz] at hpf
    simp at hpf
  have hF3 : ∀ tid, clsOf tid ≠ some 0 →
      ts'.find? (fun t => t.id == tid) = ts.find? (fun t => t.id == tid) := by
    intro tid hnz
    apply find?_filter_of
    intro t ht hq
    have hid : t.id = tid := by simpa using hq
    have : t.class_id = clsOf tid := hid ▸ hcls t ht
    simp [this, hnz]
  have hL1 : ∀ tid, clsOf tid ≠ some 0 →
      flookup (registerAll sl ts).first_position tid =
        flookup (registerAll sr ts').first_position tid := by
    intro tid hnz
    rw [registerAll_lookup, registerAll_lookup, heq tid hnz, hF3 tid hnz, hexl, hexr]
  have hL1zR : ∀ tid, clsOf tid = some 0 →
      flookup (registerAll sr ts').first_position tid = none := by
    intro tid hz
    rw [registerAll_lookup, (hzero tid hz).2]
    have hfnone : ts'.find? (fun t => t.id == tid) = none :=
      (find?_eq_none_iff_frameIds ts' tid).mpr (hF2 tid hz)
    rw [hfnone]
    rfl
  have hL1zL : ∀ tid, clsOf tid = some 0 → ∀ b fx fy,
      flookup (registerAll sl ts).first_position tid = some (b, fx, fy) → b = true := by
    intro tid hz b fx fy hl
    rw [registerAll_lookup] at hl
    cases hx : flookup sl.first_position tid with
    | some e =>
        rw [hx] at hl
        obtain ⟨b0, fx0, fy0⟩ := e
        simp only [Option.some.injEq, Prod.mk.injEq] at hl
        obtain ⟨hb, _, _⟩ := hl
        exact hb ▸ (hzero tid hz).1 b0 fx0 fy0 hx
    | none =>
        rw [hx] at hl
        cases hf : ts.find? (fun t => t.id == tid) with
        | none =>
            rw [hf] at hl
            exact absurd hl (by simp)
        | some t =>
            rw [hf] at hl
            have hid : t.id = tid := by simpa using List.find?_some hf
            have htm : t ∈ ts := List.mem_of_find?_eq_some hf
            have hct : t.class_id = some 0 := by rw [hcls t htm, hid, hz]
            simp only [Option.map_some', Option.some.injEq, entryFor, Prod.mk.injEq] at hl
            obtain ⟨hb, _, _⟩ := hl
            rw [← hb, hexl, hct]
            simp
  have hEv : ∀ (tid : Nat) (d : Direction),
      tid ∈ (eventsOf sl ts).filter (fun tid => countsD (registerAll sl ts) tid d) ↔
        tid ∈ (eventsOf sr ts').filter (fun tid => countsD (registerAll sr ts') tid d) := by
    intro tid d
    rw [List.mem_filter, List.mem_filter, mem_eventsOf, mem_eventsOf]
    constructor
    · rintro ⟨⟨_, hc⟩, hcd⟩
      obtain ⟨fx, fy, hlk, hcl⟩ := (countsD_eq_true_iff _ _ _).mp hcd
      have hnz : clsOf tid ≠ some 0 := by
        intro hz
        exact Bool.noConfusion (hL1zL tid hz false fx fy hlk)
      have hlkR : flookup (registerAll sr ts').first_position tid = some (false, fx, fy) := by
        rw [← hL1 tid hnz]
        exact hlk
      refine ⟨⟨?_, ?_⟩, ?_⟩
      · rw [← flookup_isSome_iff, hlkR]
        rfl
      · intro hcur'
        exact hc (hsubids tid hcur')
      · rw [countsD_eq_true_iff]
        refine ⟨fx, fy, hlkR, ?_⟩
        rw [centerX_registerAll, centerY_registerAll, ← hw2, ← hh2]
        rw [centerX_registerAll, centerY_registerAll] at hcl
        exact hcl
    · rintro ⟨⟨_, hc'⟩, hcd⟩
      obtain ⟨fx, fy, hlk, hcl⟩ := (countsD_eq_true_iff _ _ _).mp hcd
      have hnz : clsOf tid ≠ some 0 := by
        intro hz
        rw [hL1zR tid hz] at hlk
        exact Option.noConfusion hlk
      have hlkL : flookup (registerAll sl ts).first_position tid = some (false, fx, fy) := by
        rw [hL1 tid hnz]
        exact hlk
      refine ⟨⟨?_, ?_⟩, ?_⟩
      · rw [← flookup_isSome_iff, hlkL]
        rfl
      · intro hcur
        exact hc' ((hF1 tid hnz).mp hcur)
      · rw [countsD_eq_true_iff]
        refine ⟨fx, fy, hlkL, ?_⟩
        rw [centerX_registerAll, centerY_registerAll, hw2, hh2]
        rw [centerX_registerAll, centerY_registerAll] at hcl
        exact hcl
  have hlen : ∀ d : Direction,
      ((eventsOf sl ts).filter (fun tid => countsD (registerAll sl ts) tid d)).length =
        ((eventsOf sr ts').filter (fun tid => countsD (registerAll sr ts') tid d)).length := by
    intro d
    have hndL : ((eventsOf sl ts).filter
        (fun tid => countsD (registerAll sl ts) tid d)).Nodup :=
      (disappearedIds_nodup _ _ (registerAll_nodup ts sl hndl)).filter _
    have hndR : ((eventsOf sr ts').filter
        (fun tid => countsD (registerAll sr ts') tid d)).Nodup :=
      (disappearedIds_nodup _ _ (registerAll_nodup ts' sr hndr)).filter _
    rw [← List.toFinset_card_of_nodup hndL, ← List.toFinset_card_of_nodup hndR]
    congr 1
    ext tid
    rw [List.mem_toFinset, List.mem_toFinset]
    exact hEv tid d
  refine ⟨?_, ?_, ?_, ?_, update_tracks_nodup sl ts hndl,
    update_tracks_nodup sr ts' hndr, ?_, ?_, ?_⟩
  · rw [update_tracks_excl]
    exact hexl
  · rw [update_tracks_excl]
    exact hexr
  · rw [update_tracks_w, update_tracks_w]
    exact hw
  · rw [update_tracks_h, update_tracks_h]
    exact hh
  · intro d
    rw [update_tracks_counters_apply sl ts d hndl,
      update_tracks_counters_apply sr ts' d hndr, hcnt d, hlen d]
  · intro tid hnz
    rw [update_tracks_lookup, update_tracks_lookup]
    by_cases hin : tid ∈ frameIds ts
    · rw [if_pos hin, if_pos ((hF1 tid hnz).mp hin)]
      exact hL1 tid hnz
    · rw [if_neg hin, if_neg (fun hc => hin (hsubids tid hc))]
  · intro tid hz
    constructor
    · intro b fx fy hl
      rw [update_tracks_lookup] at hl
      by_cases hin : tid ∈ frameIds ts
      · rw [if_pos hin] at hl
        exact hL1zL tid hz b fx fy hl
      · rw [if_neg hin] at hl
        exact absurd hl (by simp)
    · rw [update_tracks_lookup, if_neg (hF2 tid hz)]

theorem c5_run (clsOf : Nat → Option Nat) :
    ∀ (fss : List (List CTrack)) (sl sr : CState),
      InvC5 clsOf sl sr →
      (∀ ts ∈ fss, ∀ t ∈ ts, t.class_id = clsOf t.id) →
      InvC5 clsOf (runUpd sl fss) (runUpd sr (filterPedTracks fss)) := by
  intro fss
  induction fss with
  | nil =>
      intro sl sr hInv _
      exact hInv
  | cons ts rest ih =>
      intro sl sr hInv hcls
      have hstep := c5_step clsOf sl sr ts hInv (hcls ts (List.mem_cons_self _ _))
      exact ih (update_tracks sl ts)
        (update_tracks sr (ts.filter (fun t => !(t.class_id == some 0)))) hstep
        (fun ts2 hts2 => hcls ts2 (List.mem_cons_of_mem _ hts2))

/-- C5 amended: pre-filtering the excluded class out of the *detection*
stream before association is not equivalent to ignoring it at the
Direction Counter (the counterexample shows an excluded-class detection
can steal an association and change the spawned tracks).  The equivalence
that does hold is at the counter stage: removing excluded-class track
records from the counter's input stream yields the same tallies as the
counter's own ignored-flag mechanism, provided each identity keeps one
class over the session. -/
theorem C5_pre_filter_amended (w h : Nat) (fss : List (List CTrack))
    (clsOf : Nat → Option Nat)
    (hcls : ∀ ts ∈ fss, ∀ t ∈ ts, t.class_id = clsOf t.id) :
    get_counts (runUpd (mkCounter w h true) fss) =
      get_counts (runUpd (mkCounter w h true) (filterPedTracks fss)) := by
  have hbase : InvC5 clsOf (mkCounter w h true) (mkCounter w h true) := by
    refine ⟨rfl, rfl, rfl, rfl, by simp [mkCounter, keysOf],
      by simp [mkCounter, keysOf], fun d => rfl, fun tid _ => rfl, ?_⟩
    intro tid _
    refine ⟨?_, rfl⟩
    intro b fx fy hl
    simp [mkCounter, flookup] at hl
  have hres := c5_run clsOf fss (mkCounter w h true) (mkCounter w h true) hbase hcls
  obtain ⟨_, _, _, _, _, _, hcnt, _, _⟩ := hres
  simp [get_counts, hcnt Direction.North, hcnt Direction.South,
    hcnt Direction.East, hcnt Direction.West]

theorem C5_pre_filter_amended_witness :
    (∀ ts ∈ c5wFrames, ∀ t ∈ ts, t.class_id = c5wCls t.id) ∧
    get_counts (runUpd (mkCounter 640 480 true) c5wFrames) =
      get_counts (runUpd (mkCounter 640 480 true) (filterPedTracks c5wFrames)) :=
  ⟨by decide, C5_pre_filter_amended 640 480 c5wFrames c5wCls (by decide)⟩

theorem C3_pedestrian_exclusion_witness :
    (flookup C3ws.first_position 7 = some (true, 100, 100) ∧
      (keysOf C3ws.first_position).Nodup ∧
      7 ∉ frameIds [] ∧
      (∀ tid2 ∈ keysOf C3ws.first_position, tid2 ≠ 7 → tid2 ∈ frameIds [])) ∧
    get_counts (update_tracks C3ws []) = get_counts C3ws :=
  ⟨⟨by decide, by decide, by decide, by decide⟩,
    C3_pedestrian_exclusion.2.2 C3ws [] 7 100 100 (by decide) (by decide)
      (by decide) (by decide)⟩

theorem C7_tally_invariant_witness :
    ("North", 0) ∈ get_counts (mkCounter 640 480 true) ∧
      0 ≤ ((("North", 0) : String × Nat).2 : Int) :=
  ⟨by decide, C7_tally_invariant.2.1 (mkCounter 640 480 true) ("North", 0) (by decide)⟩

end TrafficCounter
